import Mathlib

/-!
# Design-Pattern examples: Chain of Responsibility and Memento

A shallow embedding of

* `code/ChainOfResponsibility/handler.h` and `concrete_handler.h`
  (`IHandler`, `Manager`, `Director`, `CEO`), and
* `code/Memento/originator.h` and `care_taker.h` (`Life`, `PandoraBox`),

followed by theorems about the approval chain and the save/undo history.

Handlers live in a heap (a list, address = index) and refer to their successor
through a nullable address, as the raw `IHandler *m_pSuccessor` does.  A virtual
call through such a pointer is modelled by `HandleRequest`, which takes a bound
on the call depth (`fuel`): a cyclic chain makes the C++ code recurse forever.
-/

namespace ChainOfResponsibility

/-! ## The C++ `float` argument -/

/-- Values of the C++ type `float` as far as the comparison operators can tell
them apart: not-a-number, the two infinities, and the finite values.  Every
finite `float` is a rational number; the embedding admits every rational, so a
statement proved for all `CFloat` holds for all real `float` values.  (The two
zeros compare equal and are both `finite 0`.) -/
inductive CFloat where
  | nan
  | negInf
  | posInf
  | finite (q : ℚ)
  deriving DecidableEq

namespace CFloat

/-- The operator `a <= b` on `float` (IEEE 754): false as soon as one side is
not-a-number. -/
def le : CFloat → CFloat → Bool
  | nan, _ => false
  | _, nan => false
  | negInf, _ => true
  | _, posInf => true
  | posInf, _ => false
  | _, negInf => false
  | finite a, finite b => decide (a ≤ b)

/-- The operator `a < b` on `float` (IEEE 754): false as soon as one side is
not-a-number. -/
def lt : CFloat → CFloat → Bool
  | nan, _ => false
  | _, nan => false
  | posInf, _ => false
  | _, negInf => false
  | negInf, _ => true
  | _, posInf => true
  | finite a, finite b => decide (a < b)

instance : LE CFloat := ⟨fun a b => le a b = true⟩
instance : LT CFloat := ⟨fun a b => lt a b = true⟩

instance (a b : CFloat) : Decidable (a ≤ b) := inferInstanceAs (Decidable (le a b = true))
instance (a b : CFloat) : Decidable (a < b) := inferInstanceAs (Decidable (lt a b = true))

/-- The integer literals of the source (`1`, `3`, `7`), converted to `float`
for the comparison; small integers convert exactly. -/
instance (n : Nat) : OfNat CFloat n := ⟨finite (OfNat.ofNat n)⟩

end CFloat

/-! ## Handlers, heap and machine state -/

/-- The dynamic type of a handler object: which override of the pure virtual
`IHandler::HandleRequest` its vtable selects. -/
inductive Kind where
  | Manager
  | Director
  | CEO
  deriving DecidableEq, Repr

/-- An object of a class derived from `IHandler`: its dynamic type and the
protected member `IHandler *m_pSuccessor` (`none` is `NULL`). -/
structure IHandler where
  kind : Kind
  m_pSuccessor : Option Nat
  deriving DecidableEq

/-- One line written to `std::cout` (a line ends at `std::endl`).
`approved who days` is the line of the `days <= ...` branch of the class `who`:
the class name, a fixed text, `days`, a fixed text.  `rejected` is the single
string literal of the else branch of `CEO::HandleRequest`, the message that
turns the request down. -/
inductive Line where
  | approved (who : Kind) (days : CFloat)
  | rejected
  deriving DecidableEq

/-- The state a request runs in: the handler objects, what has been written to
`std::cout`, and two ghost fields that record the execution itself:
`invoked` lists the addresses of the objects whose `HandleRequest` body was
entered, in call order, and `forwards` counts the executions of the statement
`m_pSuccessor->HandleRequest(days)`. -/
structure Machine where
  heap : List IHandler
  cout : List Line
  invoked : List Nat
  forwards : Nat
  deriving DecidableEq

/-- How a call ended. -/
inductive Status where
  /-- The call returned normally. -/
  | returned
  /-- A member function was called through a `NULL` pointer: fatal. -/
  | nullPointer
  /-- A member function was called through a pointer to no live object. -/
  | wildPointer
  /-- The call depth bound was exhausted before the call returned. -/
  | outOfFuel
  deriving DecidableEq, Repr

/-- Result of running a call: how it ended and the state it ended in. -/
structure Outcome where
  status : Status
  state : Machine
  deriving DecidableEq

/-- Writing `line << std::endl` to `std::cout`. -/
def Machine.print (σ : Machine) (line : Line) : Machine :=
  { σ with cout := σ.cout ++ [line] }

/-- Ghost step: the body of `HandleRequest` of the object at `this` is entered. -/
def Machine.enter (σ : Machine) (this : Nat) : Machine :=
  { σ with invoked := σ.invoked ++ [this] }

/-- Ghost step: the statement `m_pSuccessor->HandleRequest(days)` is reached. -/
def Machine.forward (σ : Machine) : Machine :=
  { σ with forwards := σ.forwards + 1 }

/-- The constructor `IHandler() { m_pSuccessor = NULL; }`, run by `new Manager()`,
`new Director()` and `new CEO()`: the object is placed at a fresh address, which
is returned. -/
def new (kind : Kind) (heap : List IHandler) : Nat × List IHandler :=
  (heap.length, heap ++ [{ kind := kind, m_pSuccessor := none }])

/-- The member `void SetSuccessor(IHandler *successor) { m_pSuccessor = successor; }`,
called on the object at address `this`. -/
def SetSuccessor (this : Nat) (successor : Option Nat) (heap : List IHandler) :
    List IHandler :=
  match heap[this]? with
  | none => heap
  | some obj => heap.set this { obj with m_pSuccessor := successor }

/-- The override `Manager::HandleRequest`; `call` is a virtual call of
`HandleRequest` through a pointer. -/
def Manager.HandleRequest (call : Option Nat → CFloat → Machine → Outcome)
    (self : IHandler) (days : CFloat) (σ : Machine) : Outcome :=
  if days ≤ 1 then
    ⟨.returned, σ.print (.approved .Manager days)⟩
  else
    call self.m_pSuccessor days σ.forward

/-- The override `Director::HandleRequest`. -/
def Director.HandleRequest (call : Option Nat → CFloat → Machine → Outcome)
    (self : IHandler) (days : CFloat) (σ : Machine) : Outcome :=
  if days ≤ 3 then
    ⟨.returned, σ.print (.approved .Director days)⟩
  else
    call self.m_pSuccessor days σ.forward

/-- The override `CEO::HandleRequest`; it contains no call. -/
def CEO.HandleRequest (_self : IHandler) (days : CFloat) (σ : Machine) : Outcome :=
  if days ≤ 7 then
    ⟨.returned, σ.print (.approved .CEO days)⟩
  else
    ⟨.returned, σ.print .rejected⟩

/-- The virtual call `p->HandleRequest(days)` with at most `fuel` nested calls:
fatal through `NULL`, otherwise dispatch on the dynamic type of the object at `p`. -/
def HandleRequest : Nat → Option Nat → CFloat → Machine → Outcome
  | _, none, _, σ => ⟨.nullPointer, σ⟩
  | 0, some _, _, σ => ⟨.outOfFuel, σ⟩
  | fuel + 1, some p, days, σ =>
    match σ.heap[p]? with
    | none => ⟨.wildPointer, σ⟩
    | some obj =>
      match obj.kind with
      | .Manager => Manager.HandleRequest (HandleRequest fuel) obj days (σ.enter p)
      | .Director => Director.HandleRequest (HandleRequest fuel) obj days (σ.enter p)
      | .CEO => CEO.HandleRequest obj days (σ.enter p)

/-- A machine at start-up: the given objects, nothing printed, nothing run. -/
def Machine.start (heap : List IHandler) : Machine :=
  { heap := heap, cout := [], invoked := [], forwards := 0 }

/-- The heap holds the chain Manager -> Director -> CEO at the addresses
`mgr`, `dir`, `ceo`; the link of the `CEO` object is `last`. -/
def IsChain (heap : List IHandler) (mgr dir ceo : Nat) (last : Option Nat) : Prop :=
  heap[mgr]? = some ⟨.Manager, some dir⟩ ∧
  heap[dir]? = some ⟨.Director, some ceo⟩ ∧
  heap[ceo]? = some ⟨.CEO, last⟩

instance (heap : List IHandler) (mgr dir ceo : Nat) (last : Option Nat) :
    Decidable (IsChain heap mgr dir ceo last) := by
  unfold IsChain; infer_instance

/-- The chain as a client assembles it: three `new`, then
`manager->SetSuccessor(director); director->SetSuccessor(ceo);`.
The objects end up at the addresses 0, 1 and 2. -/
def chain : List IHandler :=
  let (manager, h₁) := new .Manager []
  let (director, h₂) := new .Director h₁
  let (ceo, h₃) := new .CEO h₂
  SetSuccessor director (some ceo) (SetSuccessor manager (some director) h₃)

/-- The constant an override of `HandleRequest` compares `days` with:
`days <= 1` in `Manager`, `days <= 3` in `Director`, `days <= 7` in `CEO`. -/
def threshold : Kind → CFloat
  | .Manager => 1
  | .Director => 3
  | .CEO => 7

/-- The lines a call wrote: what `std::cout` holds after the call beyond what
it held in the state `σ` the call started in. -/
def Outcome.written (σ : Machine) (r : Outcome) : List Line :=
  r.state.cout.drop σ.cout.length

end ChainOfResponsibility

namespace Memento

/-! ## Memento: `Life` (originator) and `PandoraBox` (caretaker) -/

/-- Modelled from the spec: the memento class `DateTime` of `memento.h`, which
`originator.h` includes and which is not among the sources.  The spec calls the
example a direct snapshot/restore: the object keeps the string its constructor
`DateTime(std::string)` is given. -/
structure DateTime where
  m_dateTime : String
  deriving DecidableEq, Repr

/-- Modelled from the spec: the getter of `DateTime` that `Life::SetMemento`
calls; it gives back the string of the snapshot. -/
def DateTime.GetDateTime (self : DateTime) : String :=
  self.m_dateTime

/-- The originator `Life`; its only member is `std::string m_dateTime`. -/
structure Life where
  m_dateTime : String
  deriving DecidableEq, Repr

/-- The caretaker `PandoraBox`.  Its member `m_pLife` points to the one `Life`
of the `World` below.  `m_history` is the `std::vector<DateTime *>`: `back()` is
the last element of the list.  Every element comes from `new DateTime(...)` in
`CreateMemento` and no code writes to or deletes it while it is in the vector,
so the vector of pointers is a list of values. -/
structure PandoraBox where
  m_history : List DateTime
  deriving DecidableEq, Repr

/-- The objects of the example and the lines written to `std::cout`. -/
structure World where
  life : Life
  box : PandoraBox
  cout : List String
  deriving DecidableEq, Repr

/-- `std::string Life::GetDateTime() { return m_dateTime; }` -/
def Life.GetDateTime (self : Life) : String :=
  self.m_dateTime

/-- `void Life::SetMemento(DateTime *dt) { m_dateTime = dt->GetDateTime(); }` -/
def Life.SetMemento (_self : Life) (dt : DateTime) : Life :=
  { m_dateTime := dt.GetDateTime }

/-- `DateTime *Life::CreateMemento() { return new DateTime(m_dateTime); }` -/
def Life.CreateMemento (self : Life) : DateTime :=
  { m_dateTime := self.m_dateTime }

/-- `void Life::SetDateTime(std::string dt)`: prints, then assigns. -/
def Life.SetDateTime (dt : String) (w : World) : World :=
  { w with cout := w.cout ++ ["Set date time to " ++ dt], life := { m_dateTime := dt } }

/-- `void PandoraBox::Save()`: prints, then
`m_history.push_back(m_pLife->CreateMemento())`. -/
def PandoraBox.Save (w : World) : World :=
  { w with cout := w.cout ++ ["Save ..."],
           box := { m_history := w.box.m_history ++ [w.life.CreateMemento] } }

/-- `void PandoraBox::Undo()`: prints, then `m_pLife->SetMemento(m_history.back())`
and `m_history.pop_back()`.  The source has no test for an empty vector;
`back()` of an empty `std::vector` is undefined behaviour, which is `none`. -/
def PandoraBox.Undo (w : World) : Option World :=
  let w₁ := { w with cout := w.cout ++ ["Undo ..."] }
  match w₁.box.m_history.getLast? with
  | none => none
  | some dt =>
    some { w₁ with life := w₁.life.SetMemento dt,
                   box := { m_history := w₁.box.m_history.dropLast } }

/-- A client calling `life->SetDateTime(dt)` for each `dt` of a list, in order. -/
def setAll (dts : List String) (w : World) : World :=
  dts.foldl (fun w dt => Life.SetDateTime dt w) w

/-- A client doing one round per list: the `SetDateTime` calls of the list, then
`box->Save()`.  Returned with the final world are the values `GetDateTime` had at
the successive `Save` calls, in the order of saving. -/
def saveRounds : List (List String) → World → World × List String
  | [], w => (w, [])
  | dts :: rest, w =>
    let w₁ := setAll dts w
    let r := saveRounds rest (PandoraBox.Save w₁)
    (r.1, w₁.life.GetDateTime :: r.2)

/-- A client calling `box->Undo()` `n` times.  Returned with the final world
are the values `life->GetDateTime()` gives after each `Undo`, in call order;
`none` when one of the calls is undefined. -/
def undoTimes : Nat → World → Option (World × List String)
  | 0, w => some (w, [])
  | n + 1, w =>
    match PandoraBox.Undo w with
    | none => none
    | some w₁ =>
      match undoTimes n w₁ with
      | none => none
      | some r => some (r.1, w₁.life.GetDateTime :: r.2)

/-- A world right after `new Life()` and `new PandoraBox(life)`: the string is
empty, nothing is saved, nothing is printed. -/
def World.fresh : World :=
  { life := { m_dateTime := "" }, box := { m_history := [] }, cout := [] }

end Memento

namespace ChainOfResponsibility

/-! ## Comparison lemmas -/

namespace CFloat

theorem le_iff (a b : CFloat) : a ≤ b ↔ le a b = true := Iff.rfl

theorem lt_iff (a b : CFloat) : a < b ↔ lt a b = true := Iff.rfl

@[simp] theorem ofNat_eq (n : Nat) :
    (no_index (OfNat.ofNat n) : CFloat) = finite (OfNat.ofNat n) := rfl

@[simp] theorem finite_le_finite (a b : ℚ) : finite a ≤ finite b ↔ a ≤ b := by
  simp [le_iff, le]

@[simp] theorem finite_lt_finite (a b : ℚ) : finite a < finite b ↔ a < b := by
  simp [lt_iff, lt]

@[simp] theorem not_nan_le (b : CFloat) : ¬ nan ≤ b := by
  simp [le_iff, le]

@[simp] theorem not_le_nan (a : CFloat) : ¬ a ≤ nan := by
  cases a <;> simp [le_iff, le]

@[simp] theorem not_nan_lt (b : CFloat) : ¬ nan < b := by
  simp [lt_iff, lt]

@[simp] theorem not_lt_nan (a : CFloat) : ¬ a < nan := by
  cases a <;> simp [lt_iff, lt]

/-- On `float`, `a < b` excludes `b <= a`. -/
theorem not_le_of_lt {a b : CFloat} (h : a < b) : ¬ b ≤ a := by
  cases a <;> cases b <;> simp_all [le_iff, lt_iff, le, lt]

/-- On `float`, `<=` is transitive. -/
theorem le_of_le_of_le {a b c : CFloat} (h₁ : a ≤ b) (h₂ : b ≤ c) : a ≤ c := by
  cases a <;> cases b <;> cases c <;> simp_all [le_iff, le]
  exact h₁.trans h₂

/-- Away from not-a-number, failing `a <= b` is the same as `b < a`. -/
theorem not_le_iff_lt {a b : CFloat} (ha : a ≠ nan) (hb : b ≠ nan) : ¬ a ≤ b ↔ b < a := by
  cases a <;> cases b <;> simp_all [le_iff, lt_iff, le, lt]

end CFloat

/-! ## Unfolding one virtual call -/

@[simp] theorem Machine.enter_heap (σ : Machine) (p : Nat) : (σ.enter p).heap = σ.heap := rfl

@[simp] theorem Machine.forward_heap (σ : Machine) : σ.forward.heap = σ.heap := rfl

@[simp] theorem Machine.print_heap (σ : Machine) (l : Line) : (σ.print l).heap = σ.heap := rfl

/-- A call through a pointer to a `Manager`. -/
theorem HandleRequest_Manager {σ : Machine} {p : Nat} {s : Option Nat}
    (h : σ.heap[p]? = some ⟨.Manager, s⟩) (fuel : Nat) (days : CFloat) :
    HandleRequest (fuel + 1) (some p) days σ =
      if days ≤ 1 then ⟨.returned, (σ.enter p).print (.approved .Manager days)⟩
      else HandleRequest fuel s days (σ.enter p).forward := by
  simp [HandleRequest, h, Manager.HandleRequest]

/-- A call through a pointer to a `Director`. -/
theorem HandleRequest_Director {σ : Machine} {p : Nat} {s : Option Nat}
    (h : σ.heap[p]? = some ⟨.Director, s⟩) (fuel : Nat) (days : CFloat) :
    HandleRequest (fuel + 1) (some p) days σ =
      if days ≤ 3 then ⟨.returned, (σ.enter p).print (.approved .Director days)⟩
      else HandleRequest fuel s days (σ.enter p).forward := by
  simp [HandleRequest, h, Director.HandleRequest]

/-- A call through a pointer to a `CEO`. -/
theorem HandleRequest_CEO {σ : Machine} {p : Nat} {s : Option Nat}
    (h : σ.heap[p]? = some ⟨.CEO, s⟩) (fuel : Nat) (days : CFloat) :
    HandleRequest (fuel + 1) (some p) days σ =
      if days ≤ 7 then ⟨.returned, (σ.enter p).print (.approved .CEO days)⟩
      else ⟨.returned, (σ.enter p).print .rejected⟩ := by
  simp [HandleRequest, h, CEO.HandleRequest]

/-- What a request does on the chain Manager -> Director -> CEO, from any state. -/
theorem HandleRequest_chain {σ : Machine} {mgr dir ceo : Nat} {last : Option Nat}
    (hc : IsChain σ.heap mgr dir ceo last) (fuel : Nat) (days : CFloat) :
    HandleRequest (fuel + 3) (some mgr) days σ =
      if days ≤ 1 then
        ⟨.returned, { σ with cout := σ.cout ++ [.approved .Manager days],
                             invoked := σ.invoked ++ [mgr] }⟩
      else if days ≤ 3 then
        ⟨.returned, { σ with cout := σ.cout ++ [.approved .Director days],
                             invoked := σ.invoked ++ [mgr, dir],
                             forwards := σ.forwards + 1 }⟩
      else if days ≤ 7 then
        ⟨.returned, { σ with cout := σ.cout ++ [.approved .CEO days],
                             invoked := σ.invoked ++ [mgr, dir, ceo],
                             forwards := σ.forwards + 2 }⟩
      else
        ⟨.returned, { σ with cout := σ.cout ++ [.rejected],
                             invoked := σ.invoked ++ [mgr, dir, ceo],
                             forwards := σ.forwards + 2 }⟩ := by
  obtain ⟨h₁, h₂, h₃⟩ := hc
  rw [show fuel + 3 = (fuel + 2) + 1 from rfl, HandleRequest_Manager h₁]
  split
  · rfl
  · rw [show fuel + 2 = (fuel + 1) + 1 from rfl, HandleRequest_Director (by simpa using h₂)]
    split
    · simp [Machine.enter, Machine.forward, Machine.print]
    · rw [HandleRequest_CEO (by simpa using h₃)]
      split <;> simp [Machine.enter, Machine.forward, Machine.print]

/-- No call writes to a handler object: the heap after a call is the heap before. -/
theorem HandleRequest_heap (fuel : Nat) (p : Option Nat) (days : CFloat) (σ : Machine) :
    (HandleRequest fuel p days σ).state.heap = σ.heap := by
  induction fuel generalizing p σ with
  | zero => cases p <;> simp [HandleRequest]
  | succ k ih =>
    cases p with
    | none => simp [HandleRequest]
    | some a =>
      rcases hobj : σ.heap[a]? with _ | ⟨kind, s⟩
      · simp [HandleRequest, hobj]
      · cases kind
        · rw [HandleRequest_Manager hobj]; split
          · rfl
          · rw [ih]; rfl
        · rw [HandleRequest_Director hobj]; split
          · rfl
          · rw [ih]; rfl
        · rw [HandleRequest_CEO hobj]; split <;> rfl

/-- The addresses of a chain are pairwise distinct. -/
theorem IsChain.distinct {heap : List IHandler} {mgr dir ceo : Nat} {last : Option Nat}
    (hc : IsChain heap mgr dir ceo last) : mgr ≠ dir ∧ mgr ≠ ceo ∧ dir ≠ ceo := by
  obtain ⟨h₁, h₂, h₃⟩ := hc
  refine ⟨?_, ?_, ?_⟩ <;> rintro rfl <;> simp_all

/-! ## The approval chain Manager -> Director -> CEO -/

/-- C1: on the chain Manager -> Director -> CEO, a request of magnitude `m <= 1`
(zero, negative and minus infinity included) given to the Manager returns with
the Manager's approval as the only output line; only the Manager's body runs,
neither the Director nor the CEO is invoked, and nothing is forwarded. -/
theorem C1_manager_approves (heap : List IHandler) (mgr dir ceo : Nat) (last : Option Nat)
    (hc : IsChain heap mgr dir ceo last) (m : CFloat) (hm : m ≤ 1)
    (fuel : Nat) (hf : 1 ≤ fuel) :
    HandleRequest fuel (some mgr) m (.start heap) =
        ⟨.returned, { heap := heap, cout := [.approved .Manager m],
                      invoked := [mgr], forwards := 0 }⟩ ∧
      dir ∉ (HandleRequest fuel (some mgr) m (.start heap)).state.invoked ∧
      ceo ∉ (HandleRequest fuel (some mgr) m (.start heap)).state.invoked ∧
      (HandleRequest fuel (some mgr) m (.start heap)).state.forwards = 0 := by
  obtain ⟨k, rfl⟩ : ∃ k, fuel = k + 1 := ⟨fuel - 1, by omega⟩
  obtain ⟨hmd, hmc, -⟩ := hc.distinct
  have h := @HandleRequest_Manager (.start heap) _ _ hc.1 k m
  rw [if_pos hm] at h
  rw [h]
  simp [Machine.start, Machine.enter, Machine.print, Ne.symm hmd, Ne.symm hmc]

/-- C2: on the chain Manager -> Director -> CEO, a request of magnitude
`1 < m <= 3` given to the Manager is forwarded exactly once, from the Manager to
the Director, and returns with the Director's approval as the only output line;
the CEO is not invoked. -/
theorem C2_director_approves (heap : List IHandler) (mgr dir ceo : Nat) (last : Option Nat)
    (hc : IsChain heap mgr dir ceo last) (m : CFloat) (hlo : 1 < m) (hhi : m ≤ 3)
    (fuel : Nat) (hf : 2 ≤ fuel) :
    HandleRequest fuel (some mgr) m (.start heap) =
        ⟨.returned, { heap := heap, cout := [.approved .Director m],
                      invoked := [mgr, dir], forwards := 1 }⟩ ∧
      ceo ∉ (HandleRequest fuel (some mgr) m (.start heap)).state.invoked := by
  obtain ⟨k, rfl⟩ : ∃ k, fuel = k + 1 + 1 := ⟨fuel - 2, by omega⟩
  obtain ⟨-, hmc, hdc⟩ := hc.distinct
  have h₁ := @HandleRequest_Manager (.start heap) _ _ hc.1 (k + 1) m
  rw [if_neg (CFloat.not_le_of_lt hlo)] at h₁
  have h₂ := @HandleRequest_Director ((Machine.start heap).enter mgr).forward dir (some ceo)
    hc.2.1 k m
  rw [if_pos hhi] at h₂
  rw [h₁, h₂]
  simp [Machine.start, Machine.enter, Machine.print, Machine.forward, Ne.symm hmc, Ne.symm hdc]

/-- C3: on the chain Manager -> Director -> CEO, a request of magnitude
`3 < m <= 7` given to the Manager is forwarded exactly twice, Manager to Director
and Director to CEO, and returns with the CEO's approval as the only output
line. -/
theorem C3_ceo_approves (heap : List IHandler) (mgr dir ceo : Nat) (last : Option Nat)
    (hc : IsChain heap mgr dir ceo last) (m : CFloat) (hlo : 3 < m) (hhi : m ≤ 7)
    (fuel : Nat) (hf : 3 ≤ fuel) :
    HandleRequest fuel (some mgr) m (.start heap) =
      ⟨.returned, { heap := heap, cout := [.approved .CEO m],
                    invoked := [mgr, dir, ceo], forwards := 2 }⟩ := by
  obtain ⟨k, rfl⟩ : ∃ k, fuel = k + 3 := ⟨fuel - 3, by omega⟩
  have h3 : ¬ m ≤ 3 := CFloat.not_le_of_lt hlo
  have h1 : ¬ m ≤ 1 := fun h => h3 (CFloat.le_of_le_of_le h (by decide))
  rw [@HandleRequest_chain (.start heap) _ _ _ _ hc, if_neg h1, if_neg h3, if_pos hhi]
  simp [Machine.start]

/-- C4: on the chain Manager -> Director -> CEO, a request of magnitude `m > 7`
given to the Manager is forwarded exactly twice and then turned down by the CEO:
the call returns, the rejection message is the only output line (no handler
approves), and the CEO, the last handler invoked, forwards nothing. -/
theorem C4_ceo_rejects (heap : List IHandler) (mgr dir ceo : Nat) (last : Option Nat)
    (hc : IsChain heap mgr dir ceo last) (m : CFloat) (hm : 7 < m)
    (fuel : Nat) (hf : 3 ≤ fuel) :
    HandleRequest fuel (some mgr) m (.start heap) =
        ⟨.returned, { heap := heap, cout := [.rejected],
                      invoked := [mgr, dir, ceo], forwards := 2 }⟩ ∧
      ∀ who days, Line.approved who days ∉
        (HandleRequest fuel (some mgr) m (.start heap)).state.cout := by
  obtain ⟨k, rfl⟩ : ∃ k, fuel = k + 3 := ⟨fuel - 3, by omega⟩
  have h7 : ¬ m ≤ 7 := CFloat.not_le_of_lt hm
  have h3 : ¬ m ≤ 3 := fun h => h7 (CFloat.le_of_le_of_le h (by decide))
  have h1 : ¬ m ≤ 1 := fun h => h7 (CFloat.le_of_le_of_le h (by decide))
  rw [@HandleRequest_chain (.start heap) _ _ _ _ hc, if_neg h1, if_neg h3, if_neg h7]
  simp [Machine.start]

/-- Witness for C1: half a day on the assembled chain. -/
theorem C1_manager_approves_witness :
    (IsChain chain 0 1 2 none ∧ CFloat.finite (1 / 2) ≤ 1 ∧ 1 ≤ 1) ∧
      HandleRequest 1 (some 0) (.finite (1 / 2)) (.start chain) =
        ⟨.returned, { heap := chain, cout := [.approved .Manager (.finite (1 / 2))],
                      invoked := [0], forwards := 0 }⟩ :=
  ⟨⟨by decide, (CFloat.finite_le_finite _ _).2 (by norm_num), le_refl 1⟩,
   (C1_manager_approves chain 0 1 2 none (by decide) (.finite (1 / 2))
      ((CFloat.finite_le_finite _ _).2 (by norm_num)) 1
      (le_refl 1)).1⟩

/-- Witness for C2: two days on the assembled chain. -/
theorem C2_director_approves_witness :
    (IsChain chain 0 1 2 none ∧ 1 < CFloat.finite 2 ∧ CFloat.finite 2 ≤ 3 ∧ 2 ≤ 2) ∧
      HandleRequest 2 (some 0) (.finite 2) (.start chain) =
        ⟨.returned, { heap := chain, cout := [.approved .Director (.finite 2)],
                      invoked := [0, 1], forwards := 1 }⟩ :=
  ⟨⟨by decide, by decide, by decide, le_refl 2⟩,
   (C2_director_approves chain 0 1 2 none (by decide) (.finite 2) (by decide) (by decide) 2
      (le_refl 2)).1⟩

/-- Witness for C3: five days on the assembled chain. -/
theorem C3_ceo_approves_witness :
    (IsChain chain 0 1 2 none ∧ 3 < CFloat.finite 5 ∧ CFloat.finite 5 ≤ 7 ∧ 3 ≤ 3) ∧
      HandleRequest 3 (some 0) (.finite 5) (.start chain) =
        ⟨.returned, { heap := chain, cout := [.approved .CEO (.finite 5)],
                      invoked := [0, 1, 2], forwards := 2 }⟩ :=
  ⟨⟨by decide, by decide, by decide, le_refl 3⟩,
   C3_ceo_approves chain 0 1 2 none (by decide) (.finite 5) (by decide) (by decide) 3
      (le_refl 3)⟩

/-- Witness for C4: ten days on the assembled chain. -/
theorem C4_ceo_rejects_witness :
    (IsChain chain 0 1 2 none ∧ 7 < CFloat.finite 10 ∧ 3 ≤ 3) ∧
      HandleRequest 3 (some 0) (.finite 10) (.start chain) =
        ⟨.returned, { heap := chain, cout := [.rejected],
                      invoked := [0, 1, 2], forwards := 2 }⟩ :=
  ⟨⟨by decide, by decide, le_refl 3⟩,
   (C4_ceo_rejects chain 0 1 2 none (by decide) (.finite 10) (by decide) 3 (le_refl 3)).1⟩

/-! ## Unset successors and the terminal handler -/

/-- C5, as stated, fails: a Manager created with `new` and given no successor
is handed not-a-number.  The test `days <= 1` is false, so the request is
forwarded through the `NULL` successor, although not-a-number does not exceed 1. -/
theorem C5_counterexample :
    (new .Manager []).2[0]? = some ⟨.Manager, none⟩ ∧
      ¬ (threshold .Manager < CFloat.nan) ∧
      (HandleRequest 1 (some 0) .nan (.start (new .Manager []).2)).status = .nullPointer := by
  decide

/-- C5, amended: a Manager or Director whose successor is unset fails fatally,
by a call through `NULL`, exactly when the test `m <= threshold` is false, that
is when `m` exceeds the threshold (1 for Manager, 3 for Director) or is
not-a-number; when `m <= threshold` it approves, reaches no forwarding
statement and returns. -/
theorem C5_unset_successor (heap : List IHandler) (p : Nat) (k : Kind)
    (hk : k = .Manager ∨ k = .Director) (hp : heap[p]? = some ⟨k, none⟩)
    (m : CFloat) (fuel : Nat) (hf : 1 ≤ fuel) :
    ((HandleRequest fuel (some p) m (.start heap)).status = .nullPointer ↔ ¬ m ≤ threshold k) ∧
      (¬ m ≤ threshold k ↔ threshold k < m ∨ m = .nan) ∧
      (m ≤ threshold k ↔
        HandleRequest fuel (some p) m (.start heap) =
          ⟨.returned, { heap := heap, cout := [.approved k m],
                        invoked := [p], forwards := 0 }⟩) := by
  obtain ⟨j, rfl⟩ : ∃ j, fuel = j + 1 := ⟨fuel - 1, by omega⟩
  have hcmp : ¬ m ≤ threshold k ↔ threshold k < m ∨ m = .nan := by
    by_cases hn : m = .nan
    · subst hn; simp
    · rw [CFloat.not_le_iff_lt hn (by rcases hk with rfl | rfl <;> simp [threshold])]
      simp [hn]
  have hfatal : (HandleRequest (j + 1) (some p) m (.start heap)).status = .nullPointer ↔
      ¬ m ≤ threshold k := by
    rcases hk with rfl | rfl
    · rw [@HandleRequest_Manager (.start heap) _ _ hp]
      by_cases h : m ≤ 1
      · rw [if_pos h]; simpa [threshold] using h
      · rw [if_neg h]; simpa [threshold, HandleRequest] using h
    · rw [@HandleRequest_Director (.start heap) _ _ hp]
      by_cases h : m ≤ 3
      · rw [if_pos h]; simpa [threshold] using h
      · rw [if_neg h]; simpa [threshold, HandleRequest] using h
  refine ⟨hfatal, hcmp, ?_, ?_⟩
  · intro h
    rcases hk with rfl | rfl
    · rw [@HandleRequest_Manager (.start heap) _ _ hp, if_pos (show m ≤ 1 from h)]
      simp [Machine.start, Machine.enter, Machine.print]
    · rw [@HandleRequest_Director (.start heap) _ _ hp, if_pos (show m ≤ 3 from h)]
      simp [Machine.start, Machine.enter, Machine.print]
  · intro h
    by_contra hle
    have hs := hfatal.2 hle
    rw [h] at hs
    exact Status.noConfusion hs

/-- Witness for C5: a lone Director, four days. -/
theorem C5_unset_successor_witness :
    ((Kind.Director = .Manager ∨ Kind.Director = .Director) ∧
        (new .Director []).2[0]? = some ⟨.Director, none⟩ ∧ 1 ≤ 1) ∧
      ((HandleRequest 1 (some 0) (.finite 4) (.start (new .Director []).2)).status
          = .nullPointer ↔ ¬ CFloat.finite 4 ≤ threshold .Director) :=
  ⟨⟨by decide, by decide, le_refl 1⟩,
   (C5_unset_successor (new .Director []).2 0 .Director (by decide) (by decide) (.finite 4) 1
      (le_refl 1)).1⟩

/-- C6: the terminal handler never forwards.  A call of `HandleRequest` on a
`CEO`, whatever its successor link `s` (unset, itself, any other address) and
whatever the magnitude, returns after running the CEO's body only and reaches
no forwarding statement; so on the chain Manager -> Director -> CEO with the
CEO's successor unset a request from the head always returns and never ends in a
call through `NULL`. -/
theorem C6_ceo_never_forwards (σ : Machine) (c : Nat) (s : Option Nat)
    (hceo : σ.heap[c]? = some ⟨.CEO, s⟩) (fuel₁ : Nat) (hf₁ : 1 ≤ fuel₁)
    (heap : List IHandler) (mgr dir ceo : Nat) (hc : IsChain heap mgr dir ceo none)
    (fuel : Nat) (hf : 3 ≤ fuel) (m : CFloat) :
    ((HandleRequest fuel₁ (some c) m σ).status = .returned ∧
        (HandleRequest fuel₁ (some c) m σ).state.forwards = σ.forwards ∧
        (HandleRequest fuel₁ (some c) m σ).state.invoked = σ.invoked ++ [c]) ∧
      ((HandleRequest fuel (some mgr) m (.start heap)).status = .returned ∧
        (HandleRequest fuel (some mgr) m (.start heap)).status ≠ .nullPointer ∧
        (HandleRequest fuel (some mgr) m (.start heap)).state.forwards ≤ 2) := by
  obtain ⟨j, rfl⟩ : ∃ j, fuel₁ = j + 1 := ⟨fuel₁ - 1, by omega⟩
  obtain ⟨k, rfl⟩ : ∃ k, fuel = k + 3 := ⟨fuel - 3, by omega⟩
  constructor
  · rw [HandleRequest_CEO hceo]
    split <;> simp [Machine.enter, Machine.print]
  · rw [@HandleRequest_chain (.start heap) _ _ _ _ hc]
    split_ifs <;> simp [Machine.start]

/-- Witness for C6: a CEO whose successor is set to itself, and the assembled
chain, with eight days. -/
theorem C6_ceo_never_forwards_witness :
    ((Machine.start [⟨.CEO, some 0⟩]).heap[0]? = some ⟨.CEO, some 0⟩ ∧ 1 ≤ 1 ∧
        IsChain chain 0 1 2 none ∧ 3 ≤ 3) ∧
      (HandleRequest 1 (some 0) (.finite 8) (.start [⟨.CEO, some 0⟩])).status = .returned ∧
      (HandleRequest 3 (some 0) (.finite 8) (.start chain)).status = .returned :=
  have h := C6_ceo_never_forwards (.start [⟨.CEO, some 0⟩]) 0 (some 0) (by decide) 1 (le_refl 1)
    chain 0 1 2 (by decide) 3 (le_refl 3) (.finite 8)
  ⟨⟨by decide, le_refl 1, by decide, le_refl 3⟩, h.1.1, h.2.1⟩

/-! ## Repeated requests and the output trace -/

/-- C7: on the chain Manager -> Director -> CEO, a request handled twice in
succession with the same magnitude gives the same decision both times.  Both
calls return, the handler objects (successor links included) are the same after
each call as before it, and the lines the second call writes are the lines the
first call wrote. -/
theorem C7_same_decision_twice (σ : Machine) (mgr dir ceo : Nat) (last : Option Nat)
    (hc : IsChain σ.heap mgr dir ceo last) (m : CFloat) (fuel : Nat) (hf : 3 ≤ fuel) :
    (HandleRequest fuel (some mgr) m σ).status = .returned ∧
      (HandleRequest fuel (some mgr) m σ).state.heap = σ.heap ∧
      (HandleRequest fuel (some mgr) m (HandleRequest fuel (some mgr) m σ).state).status
        = .returned ∧
      (HandleRequest fuel (some mgr) m (HandleRequest fuel (some mgr) m σ).state).state.heap
        = σ.heap ∧
      (HandleRequest fuel (some mgr) m (HandleRequest fuel (some mgr) m σ).state).written
          (HandleRequest fuel (some mgr) m σ).state
        = (HandleRequest fuel (some mgr) m σ).written σ := by
  obtain ⟨k, rfl⟩ : ∃ k, fuel = k + 3 := ⟨fuel - 3, by omega⟩
  have hheap := HandleRequest_heap (k + 3) (some mgr) m σ
  have hc₂ : IsChain (HandleRequest (k + 3) (some mgr) m σ).state.heap mgr dir ceo last := by
    rw [hheap]; exact hc
  refine ⟨?_, hheap, ?_, ?_, ?_⟩
  · rw [HandleRequest_chain hc]; split_ifs <;> rfl
  · rw [HandleRequest_chain hc₂]; split_ifs <;> rfl
  · rw [HandleRequest_heap, hheap]
  · rw [HandleRequest_chain hc₂, HandleRequest_chain hc]
    split_ifs <;> simp [Outcome.written]

/-- Witness for C7: two days, asked twice on the assembled chain. -/
theorem C7_same_decision_twice_witness :
    (IsChain (Machine.start chain).heap 0 1 2 none ∧ 3 ≤ 3) ∧
      (HandleRequest 3 (some 0) (.finite 2)
          (HandleRequest 3 (some 0) (.finite 2) (.start chain)).state).written
          (HandleRequest 3 (some 0) (.finite 2) (.start chain)).state
        = (HandleRequest 3 (some 0) (.finite 2) (.start chain)).written (.start chain) :=
  ⟨⟨by decide, le_refl 3⟩,
   (C7_same_decision_twice (.start chain) 0 1 2 none (by decide) (.finite 2) 3
      (le_refl 3)).2.2.2.2⟩

/-- C8, as stated, fails: on the assembled chain, two days are forwarded once
(Manager to Director), yet the output is the Director's approval alone: one
line, not two.  The forwarding Manager writes nothing. -/
theorem C8_counterexample :
    (HandleRequest 3 (some 0) (.finite 2) (.start chain)).state.forwards = 1 ∧
      (HandleRequest 3 (some 0) (.finite 2) (.start chain)).state.cout
        = [.approved .Director (.finite 2)] ∧
      (HandleRequest 3 (some 0) (.finite 2) (.start chain)).state.cout.length
        ≠ (HandleRequest 3 (some 0) (.finite 2) (.start chain)).state.forwards + 1 := by
  have h := @HandleRequest_chain (.start chain) 0 1 2 none (by decide) 0 (.finite 2)
  rw [if_neg (by decide), if_pos (by decide)] at h
  rw [show (3 : Nat) = 0 + 3 from rfl, h]
  simp [Machine.start]

/-- C8, amended: only the handler that decides writes a line, and forwarding
writes nothing.  A request on the chain Manager -> Director -> CEO is forwarded
`k <= 2` times, runs the bodies of `k + 1` handlers and produces exactly one
output line: the Manager's approval when nothing is forwarded, the Director's
approval after one forward, the CEO's approval or its rejection after two. -/
theorem C8_one_line_per_request (heap : List IHandler) (mgr dir ceo : Nat)
    (last : Option Nat) (hc : IsChain heap mgr dir ceo last) (m : CFloat)
    (fuel : Nat) (hf : 3 ≤ fuel) :
    (HandleRequest fuel (some mgr) m (.start heap)).state.cout.length = 1 ∧
      (HandleRequest fuel (some mgr) m (.start heap)).state.invoked.length
        = (HandleRequest fuel (some mgr) m (.start heap)).state.forwards + 1 ∧
      (((HandleRequest fuel (some mgr) m (.start heap)).state.forwards = 0 ∧
          (HandleRequest fuel (some mgr) m (.start heap)).state.cout
            = [.approved .Manager m]) ∨
        ((HandleRequest fuel (some mgr) m (.start heap)).state.forwards = 1 ∧
          (HandleRequest fuel (some mgr) m (.start heap)).state.cout
            = [.approved .Director m]) ∨
        ((HandleRequest fuel (some mgr) m (.start heap)).state.forwards = 2 ∧
          ((HandleRequest fuel (some mgr) m (.start heap)).state.cout
              = [.approved .CEO m] ∨
            (HandleRequest fuel (some mgr) m (.start heap)).state.cout = [.rejected]))) := by
  obtain ⟨k, rfl⟩ : ∃ k, fuel = k + 3 := ⟨fuel - 3, by omega⟩
  rw [@HandleRequest_chain (.start heap) _ _ _ _ hc]
  split_ifs <;> simp [Machine.start]

/-- Witness for C8: two days on the assembled chain give one line. -/
theorem C8_one_line_per_request_witness :
    (IsChain chain 0 1 2 none ∧ 3 ≤ 3) ∧
      (HandleRequest 3 (some 0) (.finite 2) (.start chain)).state.cout.length = 1 :=
  ⟨⟨by decide, le_refl 3⟩,
   (C8_one_line_per_request chain 0 1 2 none (by decide) (.finite 2) 3 (le_refl 3)).1⟩

end ChainOfResponsibility

namespace Memento

/-! ## Save and Undo -/

@[simp] theorem setAll_box (dts : List String) (w : World) : (setAll dts w).box = w.box := by
  induction dts generalizing w with
  | nil => rfl
  | cons dt rest ih => simp [setAll, List.foldl] at ih ⊢; rw [ih]; rfl

/-- `Undo` on a history that ends with the memento `d`. -/
theorem Undo_append (life : Life) (h : List DateTime) (d : DateTime) (out : List String) :
    PandoraBox.Undo { life := life, box := { m_history := h ++ [d] }, cout := out } =
      some { life := { m_dateTime := d.GetDateTime }, box := { m_history := h },
             cout := out ++ ["Undo ..."] } := by
  simp [PandoraBox.Undo, Life.SetMemento]

/-- `Undo` on an empty history. -/
theorem Undo_nil (life : Life) (out : List String) :
    PandoraBox.Undo { life := life, box := { m_history := [] }, cout := out } = none := by
  simp [PandoraBox.Undo]

/-- Undoing as many times as there are mementos on top of `h` gives them back,
last saved first, and leaves `h`. -/
theorem undoTimes_stack (h ds : List DateTime) (w : World)
    (hw : w.box.m_history = h ++ ds) :
    ∃ w₁, undoTimes ds.length w = some (w₁, (ds.map DateTime.GetDateTime).reverse) ∧
      w₁.box.m_history = h := by
  induction ds using List.reverseRecOn generalizing w with
  | nil => exact ⟨w, rfl, by simpa using hw⟩
  | append_singleton ds d ih =>
    obtain ⟨life, ⟨hist⟩, out⟩ := w
    simp only at hw
    subst hw
    rw [← List.append_assoc, List.length_append, List.length_singleton, undoTimes,
      Undo_append]
    obtain ⟨w₁, h₁, h₂⟩ := ih
      { life := { m_dateTime := d.GetDateTime }, box := { m_history := h ++ ds },
        cout := out ++ ["Undo ..."] } rfl
    refine ⟨w₁, ?_, h₂⟩
    simp [h₁, Life.GetDateTime]

/-- The rounds of `saveRounds` push one memento per round, holding the value
saved in that round. -/
theorem saveRounds_history (rounds : List (List String)) (w : World) :
    (saveRounds rounds w).1.box.m_history =
        w.box.m_history ++ (saveRounds rounds w).2.map DateTime.mk ∧
      (saveRounds rounds w).2.length = rounds.length := by
  induction rounds generalizing w with
  | nil => simp [saveRounds]
  | cons dts rest ih =>
    obtain ⟨h₁, h₂⟩ := ih (PandoraBox.Save (setAll dts w))
    simp only [saveRounds, h₁, h₂, List.map_cons, List.length_cons, and_true]
    simp [PandoraBox.Save, Life.CreateMemento, Life.GetDateTime]

/-- C9, as stated, fails: `Undo` before any `Save`, and a second `Undo` after
a single `Save`, both call `back()` on an empty history, which is undefined. -/
theorem C9_counterexample :
    World.fresh.box.m_history = [] ∧
      PandoraBox.Undo World.fresh = none ∧
      (PandoraBox.Undo (PandoraBox.Save World.fresh)).bind PandoraBox.Undo = none := by
  refine ⟨rfl, ?_, ?_⟩
  · exact Undo_nil _ _
  · have h := Undo_append World.fresh.life [] World.fresh.life.CreateMemento
      (World.fresh.cout ++ ["Save ..."])
    simp only [List.nil_append] at h
    simp only [PandoraBox.Save, World.fresh, List.nil_append] at h ⊢
    rw [h]
    exact Undo_nil { m_dateTime := (Life.CreateMemento { m_dateTime := "" }).GetDateTime }
      (["Save ..."] ++ ["Undo ..."])

/-- C9, amended: `Undo` is well defined exactly when the history is not empty.
On a history that ends with the memento `d` it prints, sets the date-time of the
`Life` to the string of `d` and removes `d` from the history; on an empty
history it reads `back()` of an empty vector, which is undefined. -/
theorem C9_undo_defined_iff_nonempty (life : Life) (h : List DateTime) (d : DateTime)
    (out : List String) (w : World) :
    PandoraBox.Undo { life := life, box := { m_history := h ++ [d] }, cout := out } =
        some { life := { m_dateTime := d.GetDateTime }, box := { m_history := h },
               cout := out ++ ["Undo ..."] } ∧
      PandoraBox.Undo { life := life, box := { m_history := [] }, cout := out } = none ∧
      (PandoraBox.Undo w = none ↔ w.box.m_history = []) ∧
      ((PandoraBox.Undo w).isSome = true ↔ w.box.m_history ≠ []) := by
  refine ⟨Undo_append life h d out, Undo_nil life out, ?_, ?_⟩
  · cases hl : w.box.m_history.getLast? with
    | none => simp_all [PandoraBox.Undo]
    | some x =>
      have hne : w.box.m_history ≠ [] := by rintro he; simp [he] at hl
      simp [PandoraBox.Undo, hl, hne]
  · cases hl : w.box.m_history.getLast? with
    | none => simp_all [PandoraBox.Undo]
    | some x =>
      have hne : w.box.m_history ≠ [] := by rintro he; simp [he] at hl
      simp [PandoraBox.Undo, hl, hne]

/-- C10: Save and Undo are a last-in-first-out round trip.  From any world,
`Save`, then any `SetDateTime` calls, then `Undo` is defined, makes `GetDateTime`
return what it returned at the `Save`, and leaves the `Life` and the history as
they were before the `Save`.  And `n` rounds of `SetDateTime` calls and a `Save`,
then any `SetDateTime` calls, then `n` times `Undo`: every `Undo` is defined, the
values `GetDateTime` gives after the successive `Undo` calls are the saved values
in reverse order of saving, and the history ends as it started. -/
theorem C10_save_undo_lifo (w : World) (dts : List String) (rounds : List (List String))
    (last : List String) :
    (∃ w₁, PandoraBox.Undo (setAll dts (PandoraBox.Save w)) = some w₁ ∧
        w₁.life.GetDateTime = w.life.GetDateTime ∧
        w₁.life = w.life ∧
        w₁.box.m_history = w.box.m_history) ∧
      (∃ w₂, undoTimes rounds.length (setAll last (saveRounds rounds w).1)
          = some (w₂, (saveRounds rounds w).2.reverse) ∧
        w₂.box.m_history = w.box.m_history) := by
  constructor
  · have hb : (setAll dts (PandoraBox.Save w)).box.m_history
        = w.box.m_history ++ [w.life.CreateMemento] := by
      rw [setAll_box]; rfl
    generalize setAll dts (PandoraBox.Save w) = u at hb
    obtain ⟨life, ⟨hist⟩, out⟩ := u
    simp only at hb
    subst hb
    rw [Undo_append]
    exact ⟨_, rfl, rfl, rfl, rfl⟩
  · obtain ⟨h₁, h₂⟩ := saveRounds_history rounds w
    have hb : (setAll last (saveRounds rounds w).1).box.m_history
        = w.box.m_history ++ (saveRounds rounds w).2.map DateTime.mk := by
      rw [setAll_box]; exact h₁
    obtain ⟨w₂, h₃, h₄⟩ := undoTimes_stack _ _ _ hb
    refine ⟨w₂, ?_, h₄⟩
    rw [List.length_map, h₂] at h₃
    rw [h₃]
    simp [Function.comp_def, DateTime.GetDateTime]

end Memento
